import Mathlib

/-!
# Order-history aggregation core: a shallow embedding

This file embeds the order-history plugin's request handler
(`order_history/views.py`, class `HistoryView`) in Lean and proves the
specification's claims about it.

Python dictionaries are embedded as insertion-ordered association lists
(`List (Nat × α)`): a read is the first matching key (`dget?`), a write
updates the first matching key in place or appends a fresh key at the end
(`dset`), exactly the observable behaviour of `dict` iteration order.

The helper module (`helpers.construct_date_range`, `helpers.convert_date`)
and the request serializer are not part of the available source; they are
modelled from the specification where marked.
-/

namespace OrderHistory

/-- A calendar date (year, month, day). -/
structure Date where
  year : Nat
  month : Nat
  day : Nat
deriving DecidableEq

/-- The bucketing period: request codes D / W / M / Y. -/
inductive Period where
  | day
  | week
  | month
  | year
deriving DecidableEq

/-- Request-level failures of the history endpoint (spec §7).
`missingPart` models the `KeyError` raised by `part_dict[part_id]` when an
aggregated entity id has no descriptor. -/
inductive HistoryError where
  | invalidRange
  | unsupportedPeriod
  | missingTimestamp
  | missingPart
deriving DecidableEq

/-- Entity descriptor: the fields of a part that the view reads
(`part.pk`, `part.name`, `part.IPN`). -/
structure Part where
  pk : Nat
  name : String
  IPN : String
deriving DecidableEq

/-- One raw record: a completed build order as consumed by the aggregation
loop (`build.part`, `build.quantity`, `build.completion_date`). -/
structure Build where
  part : Part
  quantity : Nat
  completion_date : Option Date
deriving DecidableEq

/-- Python dict read `d[k]` / `k in d`: first occurrence of the key. -/
def dget? (k : Nat) : List (Nat × α) → Option α
  | [] => none
  | (k', v) :: rest => if k = k' then some v else dget? k rest

/-- Python dict write `d[k] = v`: update the existing slot in place, or
append a new key at the end (insertion order). -/
def dset (k : Nat) (v : α) : List (Nat × α) → List (Nat × α)
  | [] => [(k, v)]
  | (k', v') :: rest => if k = k' then (k, v) :: rest else (k', v') :: dset k v rest

/-- Sparse per-entity bucket map: bucket key → accumulated quantity. -/
abbrev Entries := List (Nat × Nat)

/-- `parts` dict of the aggregation loop: entity id → descriptor. -/
abbrev PartsDict := List (Nat × Part)

/-- `history_items` dict of the aggregation loop: entity id → sparse map. -/
abbrev HistDict := List (Nat × Entries)

/-- State of the aggregation loop: the `parts` and `history_items` dicts. -/
abbrev AggState := PartsDict × HistDict

/-- Total order on calendar dates (year, then month, then day). -/
def dateLe (a b : Date) : Bool :=
  if a.year ≠ b.year then a.year < b.year
  else if a.month ≠ b.month then a.month < b.month
  else a.day ≤ b.day

/-- Modelled from the spec: the period calendar of the absent helper module.
A date's ordinal on a simplified monotone calendar scale, used to index
period instances. -/
def dayOrdinal (d : Date) : Nat :=
  d.year * 372 + (d.month - 1) * 31 + (d.day - 1)

/-- Modelled from the spec: the bucket key of the period instance containing
a date. Bucket keys are opaque, totally ordered values (spec §3); they are
modelled as monotone instance indices, so that two dates in one instance get
one key and calendar order is key order. -/
def periodIndex (d : Date) : Period → Nat
  | .day => dayOrdinal d
  | .week => dayOrdinal d / 7
  | .month => d.year * 12 + (d.month - 1)
  | .year => d.year

/-- Modelled from the spec: `helpers.convert_date` is not in the available
source. It derives the bucket key of a record's completion timestamp and
fails with `MissingTimestampError` when the timestamp is absent (spec §4.2). -/
def convert_date (d : Option Date) (p : Period) : Except HistoryError Nat :=
  match d with
  | none => .error .missingTimestamp
  | some d => .ok (periodIndex d p)

/-- Modelled from the spec: `helpers.construct_date_range` is not in the
available source. For `start ≤ end` it returns the complete, gap-free,
strictly ascending sequence of bucket keys from the instance containing
`start` to the instance containing `end` (spec §4.1); for `start > end` it
fails with `InvalidRangeError`. -/
def construct_date_range (s e : Date) (p : Period) : Except HistoryError (List Nat) :=
  if dateLe s e then
    .ok ((List.range (periodIndex e p - periodIndex s p + 1)).map
      (fun i => periodIndex s p + i))
  else
    .error .invalidRange

/-- One iteration of the aggregation loop of
`generate_build_order_history` (views.py lines 88–102): register the part
descriptor and an empty sparse map on first sight of the entity, derive the
record's bucket key, zero-initialise the bucket on first touch, then add
the record's quantity into it. -/
def aggStep (p : Period) (st : AggState) (b : Build) : Except HistoryError AggState := do
  let parts := st.1
  let hist := st.2
  let parts := if (dget? b.part.pk parts).isSome then parts else dset b.part.pk b.part parts
  let hist := if (dget? b.part.pk hist).isSome then hist else dset b.part.pk [] hist
  let date_key ← convert_date b.completion_date p
  let entries := (dget? b.part.pk hist).getD []
  let entries := if (dget? date_key entries).isSome then entries else dset date_key 0 entries
  let entries := dset date_key ((dget? date_key entries).getD 0 + b.quantity) entries
  pure (parts, dset b.part.pk entries hist)

/-- The whole aggregation loop: fold `aggStep` over the fetched records,
starting from empty `parts` and `history_items` dicts. -/
def aggregate (p : Period) (bs : List Build) : Except HistoryError AggState :=
  bs.foldlM (aggStep p) ([], [])

/-- The zero-fill-and-reorder step of `format_response` (views.py lines
136–146): list the sparse entries, append a zero-quantity entry for every
date key of the range that the sparse map misses, then sort by date key
(Python's stable `sorted`). -/
def completeHistory (entries : Entries) (date_range : List Nat) : Entries :=
  (entries ++ (date_range.filter (fun k => (dget? k entries).isNone)).map (fun k => (k, 0)))
    |>.mergeSort (fun a b => a.1 ≤ b.1)

/-- A cell of the export table: the header and data rows mix strings
(part name, IPN, column titles) and numbers (ids, date keys, quantities). -/
inductive Cell where
  | str (s : String)
  | num (n : Nat)
deriving DecidableEq

/-- The per-row quantity list of `export_data` (views.py line 170):
`[entries.get(key, 0) for key in self.date_range]`. -/
def export_quantities (entries : Entries) (date_range : List Nat) : List Nat :=
  date_range.map (fun k => (dget? k entries).getD 0)

/-- The result of a request: a structured response (`Response(...)`), the
bare Python list returned by the stub generators, or an export file. -/
inductive HistoryResult where
  | response (items : List (Part × Entries))
  | plainList
  | file (filename : String) (headers : List Cell) (rows : List (List Cell))
deriving DecidableEq

/-- `HistoryView.export_data` (views.py lines 158–178): a header row of the
three descriptor columns followed by one column per date key, then one row
per aggregated entity with its id, name, IPN and zero-filled quantities. -/
def export_data (fmt : String) (date_range : List Nat) (part_dict : PartsDict)
    (history_items : HistDict) : Except HistoryError HistoryResult := do
  let headers : List Cell :=
    [.str "Part ID", .str "Part Name", .str "IPN"] ++ date_range.map .num
  let rows ← history_items.mapM (fun e =>
    match dget? e.1 part_dict with
    | none => .error HistoryError.missingPart
    | some part =>
      .ok ([Cell.num e.1, Cell.str part.name, Cell.str part.IPN] ++
        (export_quantities e.2 date_range).map Cell.num))
  pure (.file ("order_history." ++ fmt) headers rows)

/-- `HistoryView.format_response` (views.py lines 121–156): delegate to
`export_data` when an export format was requested; otherwise emit one
structured record per aggregated entity, pairing its descriptor
(`part_dict[part_id]`) with its dense, sorted history. -/
def format_response (export_format : Option String) (date_range : List Nat)
    (part_dict : PartsDict) (history_items : HistDict) :
    Except HistoryError HistoryResult :=
  match export_format with
  | some fmt => export_data fmt date_range part_dict history_items
  | none => do
    let rows ← history_items.mapM (fun e =>
      match dget? e.1 part_dict with
      | none => .error HistoryError.missingPart
      | some part => .ok (part, completeHistory e.2 date_range))
    pure (.response rows)

/-- `HistoryView.generate_build_order_history` (views.py lines 57–104): run
the aggregation loop over the records supplied by the (external) query
layer, then format. -/
def generate_build_order_history (p : Period) (export_format : Option String)
    (date_range : List Nat) (records : List Build) :
    Except HistoryError HistoryResult := do
  let st ← aggregate p records
  format_response export_format date_range st.1 st.2

/-- `HistoryView.generate_purchase_order_history` (views.py lines 106–109):
returns the bare list `[]`. -/
def generate_purchase_order_history : Except HistoryError HistoryResult :=
  .ok .plainList

/-- `HistoryView.generate_sales_order_history` (views.py lines 111–114):
returns the bare list `[]`. -/
def generate_sales_order_history : Except HistoryError HistoryResult :=
  .ok .plainList

/-- `HistoryView.generate_return_order_history` (views.py lines 116–119):
returns the bare list `[]`. -/
def generate_return_order_history : Except HistoryError HistoryResult :=
  .ok .plainList

/-- The validated request parameters bound to the view by `get`
(views.py lines 31–36). The part filter only restricts the external
database query and is left to the abstract record source. -/
structure OrderHistoryRequest where
  start_date : Date
  end_date : Date
  period : Period
  order_type : String
  export_format : Option String
deriving DecidableEq

/-- `HistoryView.get` (views.py lines 23–55): construct the date range,
then dispatch on the order type; an unrecognised order type yields
`Response([])`. `records` stands for the record list produced by the
external, pre-filtered database query of the build generator. -/
def get (req : OrderHistoryRequest) (records : List Build) :
    Except HistoryError HistoryResult := do
  let dr ← construct_date_range req.start_date req.end_date req.period
  if req.order_type = "build" then
    generate_build_order_history req.period req.export_format dr records
  else if req.order_type = "purchase" then
    generate_purchase_order_history
  else if req.order_type = "sales" then
    generate_sales_order_history
  else if req.order_type = "return" then
    generate_return_order_history
  else
    pure (.response [])

/-! ## Dictionary lemmas -/

/-- The key list of an association list. -/
def keys (l : List (Nat × α)) : List Nat := l.map Prod.fst

/-- Total accumulated quantity of a sparse bucket map. -/
def valsSum (l : Entries) : Nat := (l.map Prod.snd).sum

theorem dget?_dset_self (k : Nat) (v : α) (l : List (Nat × α)) :
    dget? k (dset k v l) = some v := by
  induction l with
  | nil => simp [dget?, dset]
  | cons hd tl ih =>
    by_cases h : k = hd.1
    · simp [dset, h, dget?]
    · simp [dset, h, dget?, ih]

theorem dget?_dset_ne (k k' : Nat) (hne : k ≠ k') (v : α) (l : List (Nat × α)) :
    dget? k (dset k' v l) = dget? k l := by
  induction l with
  | nil => simp [dget?, dset, hne]
  | cons hd tl ih =>
    by_cases h : k' = hd.1
    · simp [dset, h, dget?, hne, h ▸ hne]
    · by_cases h2 : k = hd.1
      · simp [dset, h, dget?, h2]
      · simp [dset, h, dget?, h2, ih]

theorem keys_dset (k : Nat) (v : α) (l : List (Nat × α)) :
    keys (dset k v l) = if k ∈ keys l then keys l else keys l ++ [k] := by
  induction l with
  | nil => simp [keys, dset]
  | cons hd tl ih =>
    by_cases h : k = hd.1
    · simp [dset, h, keys]
    · simp only [dset, if_neg h, keys, List.map_cons] at ih ⊢
      rw [ih]
      by_cases hm : k ∈ List.map Prod.fst tl
      · simp [hm, Ne.symm h, h]
      · simp [hm, Ne.symm h, h]

theorem mem_keys_dset (a k : Nat) (v : α) (l : List (Nat × α)) :
    a ∈ keys (dset k v l) ↔ a = k ∨ a ∈ keys l := by
  rw [keys_dset]
  by_cases hm : k ∈ keys l
  · simp only [if_pos hm]
    constructor
    · exact fun h => Or.inr h
    · rintro (rfl | h) <;> [exact hm; exact h]
  · simp only [if_neg hm, List.mem_append, List.mem_singleton]
    tauto

theorem nodup_keys_dset (k : Nat) (v : α) (l : List (Nat × α))
    (h : (keys l).Nodup) : (keys (dset k v l)).Nodup := by
  rw [keys_dset]
  by_cases hm : k ∈ keys l
  · simpa [hm] using h
  · simp only [if_neg hm]
    exact List.Nodup.append h (List.nodup_singleton k) (by simpa using hm)

theorem dget?_isSome_iff (k : Nat) (l : List (Nat × α)) :
    (dget? k l).isSome ↔ k ∈ keys l := by
  induction l with
  | nil => simp [dget?, keys]
  | cons hd tl ih =>
    by_cases h : k = hd.1
    · simp [dget?, h, keys]
    · simp only [dget?, if_neg h, keys, List.map_cons, List.mem_cons]
      rw [ih]
      simp [keys, h]

theorem dget?_eq_none_iff (k : Nat) (l : List (Nat × α)) :
    dget? k l = none ↔ k ∉ keys l := by
  rw [← dget?_isSome_iff]
  cases dget? k l <;> simp

theorem mem_of_dget?_eq_some {k : Nat} {v : α} {l : List (Nat × α)}
    (h : dget? k l = some v) : (k, v) ∈ l := by
  induction l with
  | nil => simp [dget?] at h
  | cons hd tl ih =>
    by_cases hk : k = hd.1
    · simp only [dget?, if_pos hk] at h
      cases hd
      obtain rfl := Option.some.inj h
      subst hk
      exact List.mem_cons_self _ _
    · simp only [dget?, if_neg hk] at h
      exact List.mem_cons_of_mem _ (ih h)

theorem dget?_eq_some_of_mem {k : Nat} {v : α} {l : List (Nat × α)}
    (hmem : (k, v) ∈ l) (hnd : (keys l).Nodup) : dget? k l = some v := by
  induction l with
  | nil => simp at hmem
  | cons hd tl ih =>
    simp only [keys, List.map_cons, List.nodup_cons] at hnd
    rcases List.mem_cons.mp hmem with h | h
    · cases h
      simp [dget?]
    · have hk : k ≠ hd.1 := by
        rintro rfl
        exact hnd.1 (List.mem_map.mpr ⟨(hd.1, v), h, rfl⟩)
      simp only [dget?, if_neg hk]
      exact ih h hnd.2

theorem mem_keys_of_mem {k : Nat} {v : α} {l : List (Nat × α)}
    (h : (k, v) ∈ l) : k ∈ keys l :=
  List.mem_map.mpr ⟨(k, v), h, rfl⟩

/-! ## The zero-fill-and-reorder step -/

theorem mergeSort_key_eq (L R : List (Nat × Nat)) (hperm : L.Perm R)
    (hR : R.Pairwise (fun a b => a.1 < b.1)) :
    L.mergeSort (fun a b => decide (a.1 ≤ b.1)) = R := by
  have htrans : ∀ a b c : Nat × Nat, decide (a.1 ≤ b.1) = true →
      decide (b.1 ≤ c.1) = true → decide (a.1 ≤ c.1) = true := by
    intro a b c h1 h2
    simp only [decide_eq_true_eq] at h1 h2 ⊢
    omega
  have htotal : ∀ a b : Nat × Nat,
      (decide (a.1 ≤ b.1) || decide (b.1 ≤ a.1)) = true := by
    intro a b
    simp only [Bool.or_eq_true, decide_eq_true_eq]
    exact Nat.le_total _ _
  have hsorted := List.sorted_mergeSort htrans htotal L
  have hperm2 : (L.mergeSort (fun a b => decide (a.1 ≤ b.1))).Perm R :=
    (List.mergeSort_perm L _).trans hperm
  have hneR : R.Pairwise (fun a b : Nat × Nat => a.1 ≠ b.1) :=
    hR.imp (fun h => Nat.ne_of_lt h)
  have hneL : (L.mergeSort (fun a b => decide (a.1 ≤ b.1))).Pairwise
      (fun a b : Nat × Nat => a.1 ≠ b.1) :=
    (hperm2.pairwise_iff (fun hab => Ne.symm hab)).mpr hneR
  have hstrict : (L.mergeSort (fun a b => decide (a.1 ≤ b.1))).Pairwise
      (fun a b : Nat × Nat => a.1 < b.1) :=
    (hsorted.and hneL).imp (fun h =>
      Nat.lt_of_le_of_ne (by simpa using h.1) h.2)
  haveI : IsAntisymm (Nat × Nat) (fun a b => a.1 < b.1) :=
    ⟨fun a b h1 h2 => absurd (Nat.lt_trans h1 h2) (Nat.lt_irrefl _)⟩
  exact List.eq_of_perm_of_sorted hperm2 hstrict hR

/-- The central description of the zero-fill-and-reorder step: when the
sparse map has no duplicate keys, all its keys lie in the canonical
(strictly ascending) bucket sequence, then the dense history pairs each
bucket key of the sequence, in sequence order, with the sparse map's
quantity, zero when absent. -/
theorem completeHistory_eq (entries : Entries) (dr : List Nat)
    (hnd : (keys entries).Nodup)
    (hsub : ∀ kv ∈ entries, kv.1 ∈ dr)
    (hdr : dr.Pairwise (· < ·)) :
    completeHistory entries dr = dr.map (fun k => (k, (dget? k entries).getD 0)) := by
  have hdrnd : dr.Nodup := hdr.imp (fun h => Nat.ne_of_lt h)
  set zeros : Entries :=
    (dr.filter (fun k => (dget? k entries).isNone)).map (fun k => (k, 0)) with hzeros
  set R : Entries := dr.map (fun k => (k, (dget? k entries).getD 0)) with hRdef
  have hkeyszeros : keys zeros = dr.filter (fun k => (dget? k entries).isNone) := by
    simp [hzeros, keys, List.map_map, Function.comp_def]
  have hndL : ((entries ++ zeros) : Entries).Nodup := by
    apply List.Nodup.of_map Prod.fst
    rw [List.map_append]
    apply List.Nodup.append
    · exact hnd
    · rw [show List.map Prod.fst zeros = keys zeros from rfl, hkeyszeros]
      exact hdrnd.filter _
    · intro k hk1 hk2
      rw [show List.map Prod.fst zeros = keys zeros from rfl, hkeyszeros] at hk2
      have := (List.mem_filter.mp hk2).2
      simp only [decide_eq_true_eq, Option.isNone_iff_eq_none, dget?_eq_none_iff] at this
      exact this hk1
  have hndR : R.Nodup := by
    apply List.Nodup.map _ hdrnd
    intro a b h
    exact congrArg Prod.fst h
  have hmem : ∀ x : Nat × Nat, x ∈ entries ++ zeros ↔ x ∈ R := by
    intro x
    constructor
    · intro hx
      rcases List.mem_append.mp hx with hx | hx
      · obtain ⟨k, v⟩ := x
        have hk : k ∈ dr := hsub _ hx
        have hv : dget? k entries = some v := dget?_eq_some_of_mem hx hnd
        exact List.mem_map.mpr ⟨k, hk, by simp [hv]⟩
      · obtain ⟨k, hk, rfl⟩ := List.mem_map.mp hx
        have hk1 : k ∈ dr := (List.mem_filter.mp hk).1
        have hk2 : dget? k entries = none := by
          have := (List.mem_filter.mp hk).2
          simpa [Option.isNone_iff_eq_none] using this
        exact List.mem_map.mpr ⟨k, hk1, by simp [hk2]⟩
    · intro hx
      obtain ⟨k, hk, rfl⟩ := List.mem_map.mp hx
      rcases h : dget? k entries with _ | v
      · refine List.mem_append.mpr (Or.inr ?_)
        refine List.mem_map.mpr ⟨k, ?_, by simp [h]⟩
        exact List.mem_filter.mpr ⟨hk, by simp [h]⟩
      · refine List.mem_append.mpr (Or.inl ?_)
        have := mem_of_dget?_eq_some h
        simpa [h] using this
  have hperm : ((entries ++ zeros) : Entries).Perm R :=
    (List.perm_ext_iff_of_nodup hndL hndR).mpr hmem
  have hRstrict : R.Pairwise (fun a b : Nat × Nat => a.1 < b.1) :=
    List.pairwise_map.mpr (by simpa using hdr)
  exact mergeSort_key_eq _ _ hperm hRstrict

/-! ## Normal forms of the aggregation step -/

/-- Lines 99–102 of the loop in isolation: zero-initialise the bucket on
first touch, then add the record's quantity into it. -/
def bumpEntries (k q : Nat) (e : Entries) : Entries :=
  let e1 := if (dget? k e).isSome then e else dset k 0 e
  dset k ((dget? k e1).getD 0 + q) e1

/-- The successful per-record state transition (the whole loop body once
the record's bucket key has been derived from timestamp `d`). -/
def stepState (p : Period) (st : AggState) (b : Build) (d : Date) : AggState :=
  let parts := if (dget? b.part.pk st.1).isSome then st.1 else dset b.part.pk b.part st.1
  let hist := if (dget? b.part.pk st.2).isSome then st.2 else dset b.part.pk [] st.2
  (parts,
    dset b.part.pk
      (bumpEntries (periodIndex d p) b.quantity ((dget? b.part.pk hist).getD [])) hist)

theorem aggStep_none {b : Build} (p : Period) (st : AggState)
    (hb : b.completion_date = none) :
    aggStep p st b = .error .missingTimestamp := by
  obtain ⟨part, q, cd⟩ := b
  simp only at hb
  subst hb
  rfl

theorem aggStep_some {b : Build} {d : Date} (p : Period) (st : AggState)
    (hb : b.completion_date = some d) :
    aggStep p st b = .ok (stepState p st b d) := by
  obtain ⟨part, q, cd⟩ := b
  simp only at hb
  subst hb
  rfl

theorem aggregate_append (p : Period) (bs : List Build) (b : Build) :
    aggregate p (bs ++ [b]) =
      (aggregate p bs).bind (fun st => aggStep p st b) := by
  unfold aggregate
  rw [List.foldlM_append]
  rcases h : bs.foldlM (aggStep p) (([], []) : AggState) with e | st
  · rfl
  · show aggStep p st b >>= pure = (Except.ok st).bind fun st => aggStep p st b
    rw [bind_pure]
    rfl

theorem bump_nil (k q : Nat) : bumpEntries k q [] = [(k, q)] := by
  simp [bumpEntries, dget?, dset]

theorem bump_cons_eq (k q v : Nat) (t : Entries) :
    bumpEntries k q ((k, v) :: t) = (k, v + q) :: t := by
  simp [bumpEntries, dget?, dset]

theorem bump_cons_ne (k k' q v : Nat) (hne : k ≠ k') (t : Entries) :
    bumpEntries k q ((k', v) :: t) = (k', v) :: bumpEntries k q t := by
  by_cases h : (dget? k t).isSome
  · simp [bumpEntries, dget?, dset, hne, h]
  · simp [bumpEntries, dget?, dset, hne, h]

theorem bump_self (k q : Nat) (e : Entries) :
    dget? k (bumpEntries k q e) = some ((dget? k e).getD 0 + q) := by
  rcases h : dget? k e with _ | v
  · have hns : ¬ (dget? k e).isSome := by simp [h]
    simp only [bumpEntries, if_neg hns]
    rw [dget?_dset_self, dget?_dset_self]
    simp
  · have hs : (dget? k e).isSome := by simp [h]
    simp only [bumpEntries, if_pos hs]
    rw [dget?_dset_self, h]

theorem bump_ne (k k' q : Nat) (hne : k' ≠ k) (e : Entries) :
    dget? k' (bumpEntries k q e) = dget? k' e := by
  rcases h : dget? k e with _ | v
  · have : ¬ (dget? k e).isSome := by simp [h]
    simp only [bumpEntries, if_neg this]
    rw [dget?_dset_ne _ _ hne, dget?_dset_ne _ _ hne]
  · have : (dget? k e).isSome := by simp [h]
    simp only [bumpEntries, if_pos this]
    rw [dget?_dset_ne _ _ hne]

theorem bump_keys_nodup (k q : Nat) (e : Entries) (h : (keys e).Nodup) :
    (keys (bumpEntries k q e)).Nodup := by
  unfold bumpEntries
  by_cases hp : (dget? k e).isSome
  · simp only [if_pos hp]
    exact nodup_keys_dset _ _ _ h
  · simp only [if_neg hp]
    exact nodup_keys_dset _ _ _ (nodup_keys_dset _ _ _ h)

theorem bump_sum (k q : Nat) (e : Entries) :
    valsSum (bumpEntries k q e) = valsSum e + q := by
  induction e with
  | nil => simp [bump_nil, valsSum]
  | cons hd t ih =>
    obtain ⟨k', v⟩ := hd
    by_cases h : k = k'
    · subst h
      simp [bump_cons_eq, valsSum]
      omega
    · rw [bump_cons_ne _ _ _ _ h]
      simp only [valsSum, List.map_cons, List.sum_cons] at ih ⊢
      omega

theorem stepState_hist_self (p : Period) (st : AggState) (b : Build) (d : Date) :
    dget? b.part.pk (stepState p st b d).2 =
      some (bumpEntries (periodIndex d p) b.quantity ((dget? b.part.pk st.2).getD [])) := by
  unfold stepState
  by_cases hp : (dget? b.part.pk st.2).isSome
  · simp only [if_pos hp]
    rw [dget?_dset_self]
  · simp only [if_neg hp]
    rw [dget?_dset_self]
    rcases h : dget? b.part.pk st.2 with _ | es
    · rw [dget?_dset_self]
      rfl
    · exact absurd (by simp [h]) hp

theorem stepState_hist_ne (p : Period) (st : AggState) (b : Build) (d : Date)
    (pid : Nat) (hne : pid ≠ b.part.pk) :
    dget? pid (stepState p st b d).2 = dget? pid st.2 := by
  unfold stepState
  by_cases hp : (dget? b.part.pk st.2).isSome
  · simp only [if_pos hp]
    rw [dget?_dset_ne _ _ hne]
  · simp only [if_neg hp]
    rw [dget?_dset_ne _ _ hne, dget?_dset_ne _ _ hne]

theorem stepState_parts_self (p : Period) (st : AggState) (b : Build) (d : Date) :
    (dget? b.part.pk (stepState p st b d).1).isSome := by
  unfold stepState
  by_cases hp : (dget? b.part.pk st.1).isSome
  · simpa [if_pos hp] using hp
  · simp only [if_neg hp]
    rw [dget?_dset_self]
    rfl

theorem stepState_parts_ne (p : Period) (st : AggState) (b : Build) (d : Date)
    (pid : Nat) (hne : pid ≠ b.part.pk) :
    dget? pid (stepState p st b d).1 = dget? pid st.1 := by
  unfold stepState
  by_cases hp : (dget? b.part.pk st.1).isSome
  · simp [if_pos hp]
  · simp only [if_neg hp]
    rw [dget?_dset_ne _ _ hne]

/-! ## Aggregation-loop invariants -/

theorem aggregate_nil (p : Period) : aggregate p [] = .ok ([], []) := rfl

theorem aggregate_append_ok {p : Period} {bs : List Build} {b : Build} {st : AggState}
    (h : aggregate p (bs ++ [b]) = .ok st) :
    ∃ st0 d, aggregate p bs = .ok st0 ∧ b.completion_date = some d ∧
      st = stepState p st0 b d := by
  rw [aggregate_append] at h
  rcases h0 : aggregate p bs with e | st0
  · rw [h0] at h
    exact absurd h (by simp [Except.bind])
  · rw [h0] at h
    rcases hb : b.completion_date with _ | d
    · rw [show (Except.ok st0).bind (fun st => aggStep p st b) = aggStep p st0 b from rfl,
        aggStep_none p st0 hb] at h
      cases h
    · rw [show (Except.ok st0).bind (fun st => aggStep p st b) = aggStep p st0 b from rfl,
        aggStep_some p st0 hb] at h
      exact ⟨st0, d, rfl, rfl, (Except.ok.inj h).symm⟩

theorem mem_dset {k : Nat} {v : α} {l : List (Nat × α)} {x : Nat × α}
    (h : x ∈ dset k v l) : x = (k, v) ∨ x ∈ l := by
  induction l with
  | nil => simpa [dset] using h
  | cons hd tl ih =>
    by_cases hk : k = hd.1
    · rw [dset, if_pos hk] at h
      rcases List.mem_cons.mp h with h | h
      · exact Or.inl h
      · exact Or.inr (List.mem_cons_of_mem _ h)
    · rw [dset, if_neg hk] at h
      rcases List.mem_cons.mp h with h | h
      · exact Or.inr (h ▸ List.mem_cons_self _ _)
      · rcases ih h with h | h
        · exact Or.inl h
        · exact Or.inr (List.mem_cons_of_mem _ h)

/-- The aggregation loop only builds well-formed dicts: no duplicate entity
ids in `parts` or `history_items`, no duplicate bucket keys in any sparse
map. -/
theorem aggregate_wf (p : Period) (bs : List Build) (st : AggState)
    (h : aggregate p bs = .ok st) :
    (keys st.1).Nodup ∧ (keys st.2).Nodup ∧ ∀ e ∈ st.2, (keys e.2).Nodup := by
  induction bs using List.reverseRecOn generalizing st with
  | nil =>
    rw [aggregate_nil] at h
    cases h
    exact ⟨by simp [keys], by simp [keys], by simp⟩
  | append_singleton bs b ih =>
    obtain ⟨st0, d, h0, hb, rfl⟩ := aggregate_append_ok h
    obtain ⟨hp0, hh0, hi0⟩ := ih st0 h0
    unfold stepState
    refine ⟨?_, ?_, ?_⟩
    · by_cases hp : (dget? b.part.pk st0.1).isSome
      · simpa [if_pos hp] using hp0
      · simp only [if_neg hp]
        exact nodup_keys_dset _ _ _ hp0
    · by_cases hh : (dget? b.part.pk st0.2).isSome
      · simp only [if_pos hh]
        exact nodup_keys_dset _ _ _ hh0
      · simp only [if_neg hh]
        exact nodup_keys_dset _ _ _ (nodup_keys_dset _ _ _ hh0)
    · intro e he
      by_cases hh : (dget? b.part.pk st0.2).isSome
      · simp only [if_pos hh] at he
        rcases mem_dset he with rfl | he
        · apply bump_keys_nodup
          rcases hes : dget? b.part.pk st0.2 with _ | es
          · simp [keys]
          · simpa using hi0 _ (mem_of_dget?_eq_some hes)
        · exact hi0 _ he
      · simp only [if_neg hh] at he
        rcases mem_dset he with rfl | he
        · apply bump_keys_nodup
          rw [dget?_dset_self]
          simp [keys]
        · rcases mem_dset he with rfl | he
          · simp [keys]
          · exact hi0 _ he

/-- Loop invariant behind the never-failing descriptor lookups: every
entity id present in `history_items` is present in `parts`. -/
theorem aggregate_hist_keys (p : Period) (bs : List Build) (st : AggState)
    (h : aggregate p bs = .ok st) (pid : Nat)
    (hpid : (dget? pid st.2).isSome) : (dget? pid st.1).isSome := by
  induction bs using List.reverseRecOn generalizing st with
  | nil =>
    rw [aggregate_nil] at h
    cases h
    simp [dget?] at hpid
  | append_singleton bs b ih =>
    obtain ⟨st0, d, h0, hb, rfl⟩ := aggregate_append_ok h
    by_cases hpk : pid = b.part.pk
    · subst hpk
      exact stepState_parts_self p st0 b d
    · rw [stepState_hist_ne p st0 b d pid hpk] at hpid
      rw [stepState_parts_ne p st0 b d pid hpk]
      exact ih st0 h0 hpid

/-- The total quantity accumulated for an entity equals the sum of the
quantities of its raw records. -/
theorem aggregate_sum (p : Period) (bs : List Build) (st : AggState)
    (h : aggregate p bs = .ok st) (pid : Nat) :
    valsSum ((dget? pid st.2).getD []) =
      ((bs.filter (fun b => b.part.pk = pid)).map Build.quantity).sum := by
  induction bs using List.reverseRecOn generalizing st with
  | nil =>
    rw [aggregate_nil] at h
    cases h
    simp [dget?, valsSum]
  | append_singleton bs b ih =>
    obtain ⟨st0, d, h0, hb, rfl⟩ := aggregate_append_ok h
    rw [List.filter_append, List.map_append, List.sum_append]
    by_cases hpk : pid = b.part.pk
    · subst hpk
      rw [stepState_hist_self p st0 b d]
      rw [Option.getD_some, bump_sum, ih st0 h0]
      simp
    · rw [stepState_hist_ne p st0 b d pid hpk, ih st0 h0]
      have : b.part.pk ≠ pid := fun hh => hpk hh.symm
      simp [this]

/-! ## Canonical characterisation of the aggregate -/

/-- The bucket key a record would be filed under, if its timestamp is
present. -/
def buildKey? (p : Period) (b : Build) : Option Nat :=
  b.completion_date.map (fun d => periodIndex d p)

/-- The raw records of one entity, in input order. -/
def entityRecords (bs : List Build) (pid : Nat) : List Build :=
  bs.filter (fun b => b.part.pk = pid)

/-- The raw records of one entity falling into one bucket. -/
def matchingRecords (p : Period) (bs : List Build) (pid k : Nat) : List Build :=
  (entityRecords bs pid).filter (fun b => buildKey? p b = some k)

/-- The value the sparse aggregate must hold at (entity, bucket): absent
entity, absent bucket, or the summed quantity of the matching records. -/
def canonVal (p : Period) (bs : List Build) (pid k : Nat) : Option (Option Nat) :=
  if entityRecords bs pid = [] then none
  else some (if matchingRecords p bs pid k = [] then none
    else some (((matchingRecords p bs pid k).map Build.quantity).sum))

/-- Reading the nested aggregate mapping through the `Except` layer:
`none` when aggregation failed, otherwise entity presence, bucket presence
and accumulated quantity. -/
def aggQuery (r : Except HistoryError AggState) (pid k : Nat) :
    Option (Option (Option Nat)) :=
  match r with
  | .error _ => none
  | .ok st => some ((dget? pid st.2).map (fun es => dget? k es))

theorem entityRecords_append_self (bs : List Build) (b : Build) :
    entityRecords (bs ++ [b]) b.part.pk = entityRecords bs b.part.pk ++ [b] := by
  simp [entityRecords, List.filter_append]

theorem entityRecords_append_ne (bs : List Build) (b : Build) (pid : Nat)
    (hne : pid ≠ b.part.pk) :
    entityRecords (bs ++ [b]) pid = entityRecords bs pid := by
  have : ¬ (b.part.pk = pid) := fun hh => hne hh.symm
  simp [entityRecords, List.filter_append, this]

/-- The sparse aggregate is exactly its canonical description: for every
entity id and bucket key, presence and accumulated value are determined by
the multiset of raw records. -/
theorem aggregate_char (p : Period) (bs : List Build) (st : AggState)
    (h : aggregate p bs = .ok st) (pid k : Nat) :
    (dget? pid st.2).map (fun es => dget? k es) = canonVal p bs pid k := by
  induction bs using List.reverseRecOn generalizing st with
  | nil =>
    rw [aggregate_nil] at h
    cases h
    simp [dget?, canonVal, entityRecords]
  | append_singleton bs b ih =>
    obtain ⟨st0, d, h0, hb, rfl⟩ := aggregate_append_ok h
    have hkey : buildKey? p b = some (periodIndex d p) := by
      simp [buildKey?, hb]
    by_cases hpk : pid = b.part.pk
    · subst hpk
      rw [stepState_hist_self p st0 b d]
      have hent : entityRecords (bs ++ [b]) b.part.pk
          = entityRecords bs b.part.pk ++ [b] := entityRecords_append_self bs b
      have hentne : entityRecords (bs ++ [b]) b.part.pk ≠ [] := by
        simp [hent]
      rw [canonVal, if_neg hentne]
      by_cases hk : k = periodIndex d p
      · subst hk
        rw [Option.map_some', bump_self]
        have hmatch : matchingRecords p (bs ++ [b]) b.part.pk (periodIndex d p)
            = matchingRecords p bs b.part.pk (periodIndex d p) ++ [b] := by
          rw [matchingRecords, hent, List.filter_append, ← matchingRecords]
          simp [hkey]
        have hmne : matchingRecords p (bs ++ [b]) b.part.pk (periodIndex d p) ≠ [] := by
          simp [hmatch]
        rw [if_neg hmne, hmatch]
        have hval : (dget? (periodIndex d p) ((dget? b.part.pk st0.2).getD [])).getD 0
            = ((matchingRecords p bs b.part.pk (periodIndex d p)).map Build.quantity).sum := by
          have := ih st0 h0
          rcases hh : dget? b.part.pk st0.2 with _ | es
          · rw [hh] at this
            have hcanon : canonVal p bs b.part.pk (periodIndex d p) = none := by
              simpa using this.symm
            rw [canonVal] at hcanon
            by_cases hce : entityRecords bs b.part.pk = []
            · have : matchingRecords p bs b.part.pk (periodIndex d p) = [] := by
                rw [matchingRecords, hce]
                rfl
              simp [this, dget?]
            · rw [if_neg hce] at hcanon
              cases hcanon
          · rw [hh] at this
            rw [Option.getD_some]
            simp only [Option.map_some'] at this
            have hcanon := this.symm
            rw [canonVal] at hcanon
            by_cases hce : entityRecords bs b.part.pk = []
            · simp [hce] at hcanon
            · rw [if_neg hce] at hcanon
              have hinner := Option.some.inj hcanon
              by_cases hme : matchingRecords p bs b.part.pk (periodIndex d p) = []
              · rw [if_pos hme] at hinner
                rw [hme, ← hinner]
                simp
              · rw [if_neg hme] at hinner
                rw [← hinner]
                rfl
        rw [hval]
        simp
      · rw [Option.map_some', bump_ne _ _ _ hk]
        have hk' : periodIndex d p ≠ k := fun hh => hk hh.symm
        have hmatch : matchingRecords p (bs ++ [b]) b.part.pk k
            = matchingRecords p bs b.part.pk k := by
          rw [matchingRecords, hent, List.filter_append, ← matchingRecords]
          simp [hkey, hk']
        rw [hmatch]
        have := ih st0 h0
        rcases hh : dget? b.part.pk st0.2 with _ | es
        · rw [hh] at this
          have hcanon : canonVal p bs b.part.pk k = none := by
            simpa using this.symm
          rw [canonVal] at hcanon
          by_cases hce : entityRecords bs b.part.pk = []
          · have hme : matchingRecords p bs b.part.pk k = [] := by
              rw [matchingRecords, hce]
              rfl
            simp [hme, dget?]
          · rw [if_neg hce] at hcanon
            cases hcanon
        · rw [hh] at this
          simp only [Option.map_some'] at this
          have hcanon := this.symm
          rw [canonVal] at hcanon
          by_cases hce : entityRecords bs b.part.pk = []
          · simp [hce] at hcanon
          · rw [if_neg hce] at hcanon
            simp [Option.some.inj hcanon]
    · rw [stepState_hist_ne p st0 b d pid hpk]
      have hent := entityRecords_append_ne bs b pid hpk
      have hmatch : matchingRecords p (bs ++ [b]) pid k
          = matchingRecords p bs pid k := by
        rw [matchingRecords, hent, matchingRecords]
      rw [canonVal, hent, hmatch, ← canonVal]
      exact ih st0 h0

/-- A record with an absent completion timestamp aborts the whole fold with
`MissingTimestampError`, from any intermediate state. -/
theorem foldlM_error_of_none (p : Period) (bs : List Build)
    (hn : ∃ b ∈ bs, b.completion_date = none) (st : AggState) :
    bs.foldlM (aggStep p) st = .error .missingTimestamp := by
  induction bs generalizing st with
  | nil => simp at hn
  | cons b bs ih =>
    rw [List.foldlM_cons]
    rcases hb : b.completion_date with _ | d
    · rw [aggStep_none p st hb]
      rfl
    · rw [aggStep_some p st hb]
      show bs.foldlM (aggStep p) (stepState p st b d) = _
      obtain ⟨x, hx, hxn⟩ := hn
      rcases List.mem_cons.mp hx with rfl | hx
      · rw [hb] at hxn
        cases hxn
      · exact ih ⟨x, hx, hxn⟩ _

/-- A fold over records that all carry a timestamp cannot fail. -/
theorem foldlM_ok_of_all_some (p : Period) (bs : List Build)
    (hs : ∀ b ∈ bs, b.completion_date.isSome) (st : AggState) :
    ∃ st1, bs.foldlM (aggStep p) st = .ok st1 := by
  induction bs generalizing st with
  | nil => exact ⟨st, rfl⟩
  | cons b bs ih =>
    rw [List.foldlM_cons]
    rcases hb : b.completion_date with _ | d
    · exact absurd (hb ▸ hs b (List.mem_cons_self _ _)) (by simp)
    · rw [aggStep_some p st hb]
      show ∃ st1, bs.foldlM (aggStep p) (stepState p st b d) = .ok st1
      exact ih (fun x hx => hs x (List.mem_cons_of_mem _ hx)) _

theorem canonVal_perm (p : Period) {bs bs1 : List Build} (hperm : bs.Perm bs1)
    (pid k : Nat) : canonVal p bs pid k = canonVal p bs1 pid k := by
  have hent : (entityRecords bs pid).Perm (entityRecords bs1 pid) :=
    hperm.filter _
  have hmatch : (matchingRecords p bs pid k).Perm (matchingRecords p bs1 pid k) :=
    hent.filter _
  have he : entityRecords bs pid = [] ↔ entityRecords bs1 pid = [] := by
    constructor <;> intro hh
    · exact List.eq_nil_of_length_eq_zero (by rw [← hent.length_eq, hh]; rfl)
    · exact List.eq_nil_of_length_eq_zero (by rw [hent.length_eq, hh]; rfl)
  have hm : matchingRecords p bs pid k = [] ↔ matchingRecords p bs1 pid k = [] := by
    constructor <;> intro hh
    · exact List.eq_nil_of_length_eq_zero (by rw [← hmatch.length_eq, hh]; rfl)
    · exact List.eq_nil_of_length_eq_zero (by rw [hmatch.length_eq, hh]; rfl)
  have hsum : ((matchingRecords p bs pid k).map Build.quantity).sum
      = ((matchingRecords p bs1 pid k).map Build.quantity).sum :=
    (hmatch.map Build.quantity).sum_eq
  rw [canonVal, canonVal]
  by_cases hce : entityRecords bs pid = []
  · rw [if_pos hce, if_pos (he.mp hce)]
  · rw [if_neg hce, if_neg (fun hh => hce (he.mpr hh))]
    by_cases hme : matchingRecords p bs pid k = []
    · rw [if_pos hme, if_pos (hm.mp hme)]
    · rw [if_neg hme, if_neg (fun hh => hme (hm.mpr hh)), hsum]

/-! ## Formatter lemmas -/

theorem mapM_ok {β : Type} (g : Nat × Entries → Except HistoryError β)
    (hi : HistDict) (hg : ∀ e ∈ hi, ∃ y, g e = .ok y) :
    ∃ rows, hi.mapM g = .ok rows := by
  induction hi with
  | nil => exact ⟨[], rfl⟩
  | cons e t ih =>
    obtain ⟨y, hy⟩ := hg e (List.mem_cons_self _ _)
    obtain ⟨rows, hrows⟩ := ih (fun x hx => hg x (List.mem_cons_of_mem _ hx))
    refine ⟨y :: rows, ?_⟩
    rw [List.mapM_cons, hy, hrows]
    rfl

/-- When every aggregated entity id has a descriptor, both output paths of
`format_response` succeed. -/
theorem format_response_ok (ef : Option String) (dr : List Nat)
    (pd : PartsDict) (hi : HistDict)
    (hcov : ∀ e ∈ hi, (dget? e.1 pd).isSome) :
    ∃ r, format_response ef dr pd hi = .ok r := by
  cases ef with
  | none =>
    obtain ⟨rows, hrows⟩ := mapM_ok
      (fun e => match dget? e.1 pd with
        | none => .error HistoryError.missingPart
        | some part => .ok (part, completeHistory e.2 dr)) hi
      (fun e he => by
        rcases hp : dget? e.1 pd with _ | part
        · exact absurd (hp ▸ hcov e he) (by simp)
        · exact ⟨(part, completeHistory e.2 dr), by simp [hp]⟩)
    refine ⟨.response rows, ?_⟩
    unfold format_response
    rw [hrows]
    rfl
  | some fmt =>
    obtain ⟨rows, hrows⟩ := mapM_ok
      (fun e => match dget? e.1 pd with
        | none => .error HistoryError.missingPart
        | some part => .ok ([Cell.num e.1, Cell.str part.name, Cell.str part.IPN] ++
            (export_quantities e.2 dr).map Cell.num)) hi
      (fun e he => by
        rcases hp : dget? e.1 pd with _ | part
        · exact absurd (hp ▸ hcov e he) (by simp)
        · exact ⟨([Cell.num e.1, Cell.str part.name, Cell.str part.IPN] ++
            (export_quantities e.2 dr).map Cell.num), by simp [hp]⟩)
    refine ⟨.file ("order_history." ++ fmt)
      ([.str "Part ID", .str "Part Name", .str "IPN"] ++ dr.map .num) rows, ?_⟩
    unfold format_response export_data
    rw [hrows]
    rfl

/-! ## The structured loop with the dict state threaded explicitly -/

/-- The structured-response loop of `format_response`, with the `parts` and
`history_items` dicts threaded through every iteration as explicit state,
so that the absence of writes is a provable statement rather than an
artefact: every dict access of the loop body goes through the state that
the iteration receives and passes on. -/
def format_rows_st (dr : List Nat) :
    List Nat → AggState → (Except HistoryError (List (Part × Entries))) × AggState
  | [], st => (.ok [], st)
  | pid :: rest, st =>
    let history := completeHistory ((dget? pid st.2).getD []) dr
    match dget? pid st.1 with
    | none => (.error .missingPart, st)
    | some part =>
      match format_rows_st dr rest st with
      | (.ok rows, st1) => (.ok ((part, history) :: rows), st1)
      | (.error err, st1) => (.error err, st1)

theorem format_rows_st_cons (dr : List Nat) (pid : Nat) (rest : List Nat)
    (st : AggState) :
    format_rows_st dr (pid :: rest) st =
      (match dget? pid st.1 with
      | none => ((.error .missingPart : Except HistoryError (List (Part × Entries))), st)
      | some part =>
        match format_rows_st dr rest st with
        | (.ok rows, st1) =>
          (.ok ((part, completeHistory ((dget? pid st.2).getD []) dr) :: rows), st1)
        | (.error err, st1) => (.error err, st1)) := rfl

/-- The threaded loop never changes the dict state. -/
theorem format_rows_st_frame (dr : List Nat) (pids : List Nat) (st : AggState) :
    (format_rows_st dr pids st).2 = st := by
  induction pids generalizing st with
  | nil => rfl
  | cons pid rest ih =>
    rw [format_rows_st_cons]
    rcases hp : dget? pid st.1 with _ | part
    · rfl
    · rcases hr : format_rows_st dr rest st with ⟨res, st1⟩
      have hst1 : st1 = st := by
        have := ih st
        rw [hr] at this
        exact this
      cases res with
      | ok rows => simpa using hst1
      | error err => simpa using hst1

/-- The threaded loop computes exactly the rows of the structured branch of
`format_response`, provided the `history_items` dict has no duplicate keys. -/
theorem format_rows_st_agrees (dr : List Nat) (pd : PartsDict) (hi : HistDict)
    (hnd : (keys hi).Nodup) :
    (format_rows_st dr (keys hi) (pd, hi)).1 =
      hi.mapM (fun e => match dget? e.1 pd with
        | none => .error HistoryError.missingPart
        | some part => .ok (part, completeHistory e.2 dr)) := by
  suffices hgen : ∀ hi2 : HistDict, (∀ pid ∈ keys hi, dget? pid hi2 = dget? pid hi) →
      (format_rows_st dr (keys hi) (pd, hi2)).1 =
        hi.mapM (fun e => match dget? e.1 pd with
          | none => .error HistoryError.missingPart
          | some part => .ok (part, completeHistory e.2 dr)) by
    exact hgen hi (fun _ _ => rfl)
  induction hi with
  | nil =>
    intro hi2 hh
    rfl
  | cons e t ih =>
    intro hi2 hh
    obtain ⟨pid0, es0⟩ := e
    simp only [keys, List.map_cons, List.nodup_cons] at hnd
    have hkeys : keys ((pid0, es0) :: t) = pid0 :: keys t := rfl
    rw [hkeys, format_rows_st_cons, List.mapM_cons]
    have he1 : dget? pid0 hi2 = some es0 := by
      rw [hh pid0 (by rw [hkeys]; exact List.mem_cons_self _ _)]
      simp [dget?]
    have hrec := ih hnd.2 hi2 (fun pid hpid => by
      have hne : pid ≠ pid0 := fun hq => hnd.1 (by
        rw [← hq]
        simpa [keys] using hpid)
      rw [hh pid (by rw [hkeys]; exact List.mem_cons_of_mem _ hpid)]
      simp [dget?, hne])
    rcases hp : dget? pid0 pd with _ | part
    · simp only [hp]
      rfl
    · simp only [hp]
      rcases hr : format_rows_st dr (keys t) (pd, hi2) with ⟨res, st1⟩
      have hres : res = t.mapM (fun e => match dget? e.1 pd with
          | none => .error HistoryError.missingPart
          | some part => .ok (part, completeHistory e.2 dr)) := by
        rw [← hrec, hr]
      cases res with
      | ok rows =>
        rw [he1, Option.getD_some, ← hres]
        rfl
      | error err =>
        rw [← hres]
        rfl

/-! ## Claim theorems -/

/-- C1 (density): for every entity present in the aggregate, if every key
of its sparse bucket map lies in the canonical (strictly ascending) bucket
sequence, the dense history of the structured-response path lists exactly
the keys of the bucket sequence, in the same order, hence has the
sequence's length and is strictly ascending in bucket key. -/
theorem claim1_density (p : Period) (bs : List Build) (st : AggState)
    (pid : Nat) (entries : Entries) (dr : List Nat)
    (hagg : aggregate p bs = .ok st)
    (hent : dget? pid st.2 = some entries)
    (hsub : ∀ kv ∈ entries, kv.1 ∈ dr)
    (hdr : dr.Pairwise (· < ·)) :
    (completeHistory entries dr).map Prod.fst = dr ∧
    (completeHistory entries dr).length = dr.length ∧
    (completeHistory entries dr).Pairwise (fun a b => a.1 < b.1) := by
  have hnd : (keys entries).Nodup :=
    (aggregate_wf p bs st hagg).2.2 (pid, entries) (mem_of_dget?_eq_some hent)
  have hmain := completeHistory_eq entries dr hnd hsub hdr
  refine ⟨?_, ?_, ?_⟩
  · rw [hmain, List.map_map]
    simp [Function.comp_def]
  · rw [hmain, List.length_map]
  · rw [hmain]
    exact List.pairwise_map.mpr (by simpa using hdr)

/-- C2 (round-trip): for every entity present in the aggregate, under the
same hypotheses as C1, the dense structured history pairs each bucket key
of the sequence with exactly the sparse map's accumulated quantity (zero
when absent), which is also the value the export row holds in that
bucket's column. -/
theorem claim2_roundtrip (p : Period) (bs : List Build) (st : AggState)
    (pid : Nat) (entries : Entries) (dr : List Nat)
    (hagg : aggregate p bs = .ok st)
    (hent : dget? pid st.2 = some entries)
    (hsub : ∀ kv ∈ entries, kv.1 ∈ dr)
    (hdr : dr.Pairwise (· < ·)) :
    completeHistory entries dr = dr.map (fun k => (k, (dget? k entries).getD 0)) ∧
    (completeHistory entries dr).map Prod.snd = export_quantities entries dr := by
  have hnd : (keys entries).Nodup :=
    (aggregate_wf p bs st hagg).2.2 (pid, entries) (mem_of_dget?_eq_some hent)
  have hmain := completeHistory_eq entries dr hnd hsub hdr
  refine ⟨hmain, ?_⟩
  rw [hmain, List.map_map]
  rfl

/-- C3 (permutation invariance): aggregating any permutation of a record
list yields a value-equal mapping — same aborts, same entity presence,
same bucket presence, same accumulated quantities. -/
theorem claim3_permutation (p : Period) (bs bs' : List Build)
    (hperm : bs.Perm bs') :
    ∀ pid k, aggQuery (aggregate p bs) pid k = aggQuery (aggregate p bs') pid k := by
  intro pid k
  by_cases hn : ∃ b ∈ bs, b.completion_date = none
  · have hn' : ∃ b ∈ bs', b.completion_date = none := by
      obtain ⟨b, hb, hbn⟩ := hn
      exact ⟨b, hperm.subset hb, hbn⟩
    rw [show aggregate p bs = .error .missingTimestamp from
        foldlM_error_of_none p bs hn ([], []),
      show aggregate p bs' = .error .missingTimestamp from
        foldlM_error_of_none p bs' hn' ([], [])]
  · push_neg at hn
    have hs : ∀ b ∈ bs, b.completion_date.isSome :=
      fun b hb => Option.ne_none_iff_isSome.mp (hn b hb)
    have hs' : ∀ b ∈ bs', b.completion_date.isSome :=
      fun b hb => hs b (hperm.symm.subset hb)
    obtain ⟨st, hst⟩ := foldlM_ok_of_all_some p bs hs ([], [])
    obtain ⟨st', hst'⟩ := foldlM_ok_of_all_some p bs' hs' ([], [])
    have hst2 : aggregate p bs = .ok st := hst
    have hst2' : aggregate p bs' = .ok st' := hst'
    rw [hst2, hst2']
    show some ((dget? pid st.2).map (fun es => dget? k es))
        = some ((dget? pid st'.2).map (fun es => dget? k es))
    rw [aggregate_char p bs st hst2 pid k, aggregate_char p bs' st' hst2' pid k,
      canonVal_perm p hperm pid k]

/-- C4 (zero-fill correctness): the dense history's total quantity equals
the total quantity of the entity's raw records; the zero-fill step keeps
every sparse entry and only adds zero-quantity entries. -/
theorem claim4_zero_fill (p : Period) (bs : List Build) (st : AggState)
    (pid : Nat) (entries : Entries) (dr : List Nat)
    (hagg : aggregate p bs = .ok st)
    (hent : dget? pid st.2 = some entries) :
    ((completeHistory entries dr).map Prod.snd).sum
        = ((bs.filter (fun b => b.part.pk = pid)).map Build.quantity).sum ∧
    ((completeHistory entries dr).map Prod.snd).sum = (entries.map Prod.snd).sum ∧
    (∀ kv ∈ entries, kv ∈ completeHistory entries dr) ∧
    (∀ kv ∈ completeHistory entries dr, kv ∉ entries → kv.2 = 0) := by
  have hperm : (completeHistory entries dr).Perm
      (entries ++ (dr.filter (fun k => (dget? k entries).isNone)).map (fun k => (k, 0))) :=
    List.mergeSort_perm _ _
  have hzero : (((dr.filter (fun k => (dget? k entries).isNone)).map
      (fun k => (k, 0))).map Prod.snd).sum = 0 := by
    rw [List.map_map]
    apply List.sum_eq_zero
    intro x hx
    obtain ⟨k, hk, rfl⟩ := List.mem_map.mp hx
    rfl
  have hsums : ((completeHistory entries dr).map Prod.snd).sum
      = (entries.map Prod.snd).sum := by
    rw [(hperm.map Prod.snd).sum_eq, List.map_append, List.sum_append, hzero]
    omega
  refine ⟨?_, hsums, ?_, ?_⟩
  · rw [hsums]
    have := aggregate_sum p bs st hagg pid
    rw [hent, Option.getD_some] at this
    exact this
  · intro kv hkv
    exact hperm.mem_iff.mpr (List.mem_append.mpr (Or.inl hkv))
  · intro kv hkv hnot
    rcases List.mem_append.mp (hperm.mem_iff.mp hkv) with h | h
    · exact absurd h hnot
    · obtain ⟨k, hk, rfl⟩ := List.mem_map.mp h
      rfl

theorem construct_date_range_ok {s e : Date} (p : Period)
    (h : dateLe s e = true) :
    construct_date_range s e p =
      .ok ((List.range (periodIndex e p - periodIndex s p + 1)).map
        (fun i => periodIndex s p + i)) := by
  unfold construct_date_range
  rw [if_pos h]

theorem get_dispatch (req : OrderHistoryRequest) (records : List Build)
    (dr0 : List Nat)
    (hdr : construct_date_range req.start_date req.end_date req.period = .ok dr0) :
    get req records =
      (if req.order_type = "build" then
        generate_build_order_history req.period req.export_format dr0 records
      else if req.order_type = "purchase" then generate_purchase_order_history
      else if req.order_type = "sales" then generate_sales_order_history
      else if req.order_type = "return" then generate_return_order_history
      else .ok (.response [])) := by
  unfold get
  rw [hdr]
  rfl

/-- C5 (amended): when the date-range construction succeeds (start ≤ end),
a request with an unrecognised order type yields the empty structured
response `Response([])` rather than an error. -/
theorem claim5_unknown_order_type (req : OrderHistoryRequest)
    (records : List Build)
    (hrange : dateLe req.start_date req.end_date = true)
    (hot : req.order_type ∉ (["build", "purchase", "sales", "return"] : List String)) :
    get req records = .ok (.response []) := by
  rw [get_dispatch req records _ (construct_date_range_ok req.period hrange)]
  simp only [List.mem_cons, List.not_mem_nil, or_false, not_or] at hot
  obtain ⟨h1, h2, h3, h4⟩ := hot
  rw [if_neg h1, if_neg h2, if_neg h3, if_neg h4]

/-- C5 counterexample: with an unrecognised order type but
`start_date > end_date`, the handler raises `InvalidRangeError` (from the
date-range construction that runs before dispatch) instead of returning
the empty structured result, so the claim fails as universally stated. -/
theorem claim5_counterexample :
    get ⟨⟨2024, 2, 1⟩, ⟨2024, 1, 1⟩, Period.month, "unknown", none⟩ []
        = .error .invalidRange ∧
    get ⟨⟨2024, 2, 1⟩, ⟨2024, 1, 1⟩, Period.month, "unknown", none⟩ []
        ≠ .ok (.response []) := by
  refine ⟨rfl, fun hh => ?_⟩
  have h1 : get ⟨⟨2024, 2, 1⟩, ⟨2024, 1, 1⟩, Period.month, "unknown", none⟩ []
      = .error .invalidRange := rfl
  rw [h1] at hh
  exact Except.noConfusion hh

/-- C6: when `start_date > end_date` (the date order check fails), the
handler fails with `InvalidRangeError` for every order type and every
record list — so no aggregation can have taken place. -/
theorem claim6_invalid_range (req : OrderHistoryRequest) (records : List Build)
    (hgt : dateLe req.start_date req.end_date = false) :
    get req records = .error .invalidRange := by
  have hdr : construct_date_range req.start_date req.end_date req.period
      = .error .invalidRange := by
    unfold construct_date_range
    rw [if_neg (by simp [hgt])]
  unfold get
  rw [hdr]
  rfl

/-- C7: a record whose completion timestamp is absent makes the whole
aggregation loop fail with `MissingTimestampError`; it is neither skipped
nor misbucketed. -/
theorem claim7_missing_timestamp (p : Period) (bs : List Build)
    (hn : ∃ b ∈ bs, b.completion_date = none) :
    aggregate p bs = .error .missingTimestamp :=
  foldlM_error_of_none p bs hn ([], [])

/-- C8: the zero-fill-and-reorder loop of the structured path, with its
dict state threaded explicitly, returns the `parts` and `history_items`
dicts unchanged; its rows are exactly those of `format_response`, and the
untouched aggregate feeds `export_data` exactly as the original would. -/
theorem claim8_no_mutation (dr : List Nat) (pd : PartsDict) (hi : HistDict)
    (fmt : String) (hnd : (keys hi).Nodup) :
    (format_rows_st dr (keys hi) (pd, hi)).2 = (pd, hi) ∧
    Except.map HistoryResult.response (format_rows_st dr (keys hi) (pd, hi)).1
        = format_response none dr pd hi ∧
    export_data fmt dr (format_rows_st dr (keys hi) (pd, hi)).2.1
        (format_rows_st dr (keys hi) (pd, hi)).2.2 = export_data fmt dr pd hi := by
  have hframe := format_rows_st_frame dr (keys hi) (pd, hi)
  refine ⟨hframe, ?_, by rw [hframe]⟩
  rw [format_rows_st_agrees dr pd hi hnd]
  unfold format_response
  rcases hm : (hi.mapM (fun e => match dget? e.1 pd with
      | none => .error HistoryError.missingPart
      | some part => .ok (part, completeHistory e.2 dr)) :
      Except HistoryError (List (Part × Entries))) with err | rows
  · rw [hm]
    rfl
  · rw [hm]
    rfl

/-- C9: every entity id keyed in `history_items` is keyed in `parts`, and
therefore neither output path of `format_response` can hit the
missing-descriptor branch on an aggregate built by the loop. -/
theorem claim9_descriptor_total (p : Period) (bs : List Build) (st : AggState)
    (hagg : aggregate p bs = .ok st) :
    (∀ pid, (dget? pid st.2).isSome → (dget? pid st.1).isSome) ∧
    ∀ ef dr, ∃ r, format_response ef dr st.1 st.2 = .ok r := by
  have hcov : ∀ e ∈ st.2, (dget? e.1 st.1).isSome := by
    intro e he
    apply aggregate_hist_keys p bs st hagg
    rw [dget?_eq_some_of_mem he (aggregate_wf p bs st hagg).2.1]
    rfl
  exact ⟨fun pid => aggregate_hist_keys p bs st hagg pid,
    fun ef dr => format_response_ok ef dr st.1 st.2 hcov⟩

/-- C10 (amended): when the date-range construction succeeds (start ≤ end),
a request whose order type is purchase, sales or return returns the bare
empty list of the stub generator, regardless of records, period and export
format. -/
theorem claim10_stub_generators (req : OrderHistoryRequest)
    (records : List Build)
    (hrange : dateLe req.start_date req.end_date = true)
    (hot : req.order_type ∈ (["purchase", "sales", "return"] : List String)) :
    get req records = .ok .plainList := by
  rw [get_dispatch req records _ (construct_date_range_ok req.period hrange)]
  simp only [List.mem_cons, List.not_mem_nil, or_false] at hot
  rcases hot with h | h | h
  · rw [h]
    rw [if_neg (by decide), if_pos rfl]
    rfl
  · rw [h]
    rw [if_neg (by decide), if_neg (by decide), if_pos rfl]
    rfl
  · rw [h]
    rw [if_neg (by decide), if_neg (by decide), if_neg (by decide), if_pos rfl]
    rfl

/-- C10 counterexample: a purchase request with `start_date > end_date`
fails with `InvalidRangeError` instead of returning the bare empty list,
so the result does depend on the date range. -/
theorem claim10_counterexample :
    get ⟨⟨2024, 3, 5⟩, ⟨2024, 1, 2⟩, Period.month, "purchase", some "csv"⟩ []
        = .error .invalidRange ∧
    get ⟨⟨2024, 3, 5⟩, ⟨2024, 1, 2⟩, Period.month, "purchase", some "csv"⟩ []
        ≠ .ok .plainList := by
  refine ⟨rfl, fun hh => ?_⟩
  have h1 : get ⟨⟨2024, 3, 5⟩, ⟨2024, 1, 2⟩, Period.month, "purchase", some "csv"⟩ []
      = .error .invalidRange := rfl
  rw [h1] at hh
  exact Except.noConfusion hh

/-! ## Concrete witnesses -/

/-- Fixture: first entity descriptor. -/
def wPart1 : Part := ⟨1, "Widget", "W-1"⟩

/-- Fixture: second entity descriptor. -/
def wPart2 : Part := ⟨2, "Gadget", "G-2"⟩

/-- Fixture: 5 units of part 1 completed on 2024-01-15. -/
def wBuild1 : Build := ⟨wPart1, 5, some ⟨2024, 1, 15⟩⟩

/-- Fixture: 3 units of part 1 completed on 2024-02-10. -/
def wBuild2 : Build := ⟨wPart1, 3, some ⟨2024, 2, 10⟩⟩

/-- Fixture: 2 units of part 2 completed on 2024-01-20. -/
def wBuild3 : Build := ⟨wPart2, 2, some ⟨2024, 1, 20⟩⟩

/-- Fixture: a record with no completion timestamp. -/
def wBuildNoDate : Build := ⟨wPart1, 7, none⟩

/-- C1 witness at the spec §8.7 scenario (monthly keys 24288–24290 are
2024-01 … 2024-03). -/
theorem claim1_density_witness :
    aggregate Period.month [wBuild1, wBuild2, wBuild3] =
      .ok ([(1, wPart1), (2, wPart2)],
        [(1, [(24288, 5), (24289, 3)]), (2, [(24288, 2)])]) ∧
    dget? 1 ([(1, [(24288, 5), (24289, 3)]), (2, [(24288, 2)])] : HistDict)
      = some [(24288, 5), (24289, 3)] ∧
    (∀ kv ∈ ([(24288, 5), (24289, 3)] : Entries), kv.1 ∈ [24288, 24289, 24290]) ∧
    (([24288, 24289, 24290] : List Nat).Pairwise (· < ·)) ∧
    ((completeHistory [(24288, 5), (24289, 3)] [24288, 24289, 24290]).map Prod.fst
        = [24288, 24289, 24290] ∧
      (completeHistory [(24288, 5), (24289, 3)] [24288, 24289, 24290]).length
        = ([24288, 24289, 24290] : List Nat).length ∧
      (completeHistory [(24288, 5), (24289, 3)] [24288, 24289, 24290]).Pairwise
        (fun a b => a.1 < b.1)) :=
  ⟨rfl, rfl, by decide, by decide,
    claim1_density Period.month [wBuild1, wBuild2, wBuild3]
      ([(1, wPart1), (2, wPart2)], [(1, [(24288, 5), (24289, 3)]), (2, [(24288, 2)])])
      1 [(24288, 5), (24289, 3)] [24288, 24289, 24290]
      rfl rfl (by decide) (by decide)⟩

/-- C2 witness at the second entity of the spec §8.7 scenario. -/
theorem claim2_roundtrip_witness :
    aggregate Period.month [wBuild1, wBuild2, wBuild3] =
      .ok ([(1, wPart1), (2, wPart2)],
        [(1, [(24288, 5), (24289, 3)]), (2, [(24288, 2)])]) ∧
    dget? 2 ([(1, [(24288, 5), (24289, 3)]), (2, [(24288, 2)])] : HistDict)
      = some [(24288, 2)] ∧
    (∀ kv ∈ ([(24288, 2)] : Entries), kv.1 ∈ [24288, 24289, 24290]) ∧
    (([24288, 24289, 24290] : List Nat).Pairwise (· < ·)) ∧
    (completeHistory [(24288, 2)] [24288, 24289, 24290]
        = ([24288, 24289, 24290] : List Nat).map
            (fun k => (k, (dget? k ([(24288, 2)] : Entries)).getD 0)) ∧
      (completeHistory [(24288, 2)] [24288, 24289, 24290]).map Prod.snd
        = export_quantities [(24288, 2)] [24288, 24289, 24290]) :=
  ⟨rfl, rfl, by decide, by decide,
    claim2_roundtrip Period.month [wBuild1, wBuild2, wBuild3]
      ([(1, wPart1), (2, wPart2)], [(1, [(24288, 5), (24289, 3)]), (2, [(24288, 2)])])
      2 [(24288, 2)] [24288, 24289, 24290]
      rfl rfl (by decide) (by decide)⟩

/-- C3 witness: a three-record list against one of its rotations. -/
theorem claim3_permutation_witness :
    ([wBuild1, wBuild2, wBuild3] : List Build).Perm [wBuild3, wBuild1, wBuild2] ∧
    ∀ pid k,
      aggQuery (aggregate Period.month [wBuild1, wBuild2, wBuild3]) pid k
        = aggQuery (aggregate Period.month [wBuild3, wBuild1, wBuild2]) pid k :=
  ⟨by decide,
    claim3_permutation Period.month [wBuild1, wBuild2, wBuild3]
      [wBuild3, wBuild1, wBuild2] (by decide)⟩

/-- C4 witness at the first entity, over a four-bucket range. -/
theorem claim4_zero_fill_witness :
    aggregate Period.month [wBuild1, wBuild2, wBuild3] =
      .ok ([(1, wPart1), (2, wPart2)],
        [(1, [(24288, 5), (24289, 3)]), (2, [(24288, 2)])]) ∧
    dget? 1 ([(1, [(24288, 5), (24289, 3)]), (2, [(24288, 2)])] : HistDict)
      = some [(24288, 5), (24289, 3)] ∧
    (((completeHistory [(24288, 5), (24289, 3)]
          [24288, 24289, 24290, 24291]).map Prod.snd).sum
        = ((([wBuild1, wBuild2, wBuild3] : List Build).filter
            (fun b => b.part.pk = 1)).map Build.quantity).sum ∧
      ((completeHistory [(24288, 5), (24289, 3)]
          [24288, 24289, 24290, 24291]).map Prod.snd).sum
        = (([(24288, 5), (24289, 3)] : Entries).map Prod.snd).sum ∧
      (∀ kv ∈ ([(24288, 5), (24289, 3)] : Entries),
        kv ∈ completeHistory [(24288, 5), (24289, 3)] [24288, 24289, 24290, 24291]) ∧
      (∀ kv ∈ completeHistory [(24288, 5), (24289, 3)] [24288, 24289, 24290, 24291],
        kv ∉ ([(24288, 5), (24289, 3)] : Entries) → kv.2 = 0)) :=
  ⟨rfl, rfl,
    claim4_zero_fill Period.month [wBuild1, wBuild2, wBuild3]
      ([(1, wPart1), (2, wPart2)], [(1, [(24288, 5), (24289, 3)]), (2, [(24288, 2)])])
      1 [(24288, 5), (24289, 3)] [24288, 24289, 24290, 24291] rfl rfl⟩

/-- C5 witness: a valid range with an unrecognised order type. -/
theorem claim5_unknown_order_type_witness :
    dateLe ⟨2024, 1, 1⟩ ⟨2024, 3, 31⟩ = true ∧
    ("custom" ∉ (["build", "purchase", "sales", "return"] : List String)) ∧
    get ⟨⟨2024, 1, 1⟩, ⟨2024, 3, 31⟩, Period.month, "custom", none⟩ [wBuild1]
        = .ok (.response []) :=
  ⟨rfl, by decide,
    claim5_unknown_order_type
      ⟨⟨2024, 1, 1⟩, ⟨2024, 3, 31⟩, Period.month, "custom", none⟩ [wBuild1]
      rfl (by decide)⟩

/-- C6 witness: a reversed range aborts with `InvalidRangeError`. -/
theorem claim6_invalid_range_witness :
    dateLe ⟨2024, 6, 1⟩ ⟨2024, 1, 1⟩ = false ∧
    get ⟨⟨2024, 6, 1⟩, ⟨2024, 1, 1⟩, Period.day, "build", none⟩ [wBuild1]
        = .error .invalidRange :=
  ⟨rfl,
    claim6_invalid_range
      ⟨⟨2024, 6, 1⟩, ⟨2024, 1, 1⟩, Period.day, "build", none⟩ [wBuild1] rfl⟩

/-- C7 witness: one timestamped and one timestamp-less record. -/
theorem claim7_missing_timestamp_witness :
    (∃ b ∈ ([wBuild1, wBuildNoDate] : List Build), b.completion_date = none) ∧
    aggregate Period.month [wBuild1, wBuildNoDate] = .error .missingTimestamp :=
  ⟨by decide,
    claim7_missing_timestamp Period.month [wBuild1, wBuildNoDate] (by decide)⟩

/-- C8 witness: a two-entity aggregate state. -/
theorem claim8_no_mutation_witness :
    ((keys ([(1, [(24288, 5)]), (2, [(24289, 4)])] : HistDict)).Nodup) ∧
    ((format_rows_st [24288, 24289]
        (keys ([(1, [(24288, 5)]), (2, [(24289, 4)])] : HistDict))
        (([(1, wPart1), (2, wPart2)] : PartsDict),
          ([(1, [(24288, 5)]), (2, [(24289, 4)])] : HistDict))).2
      = (([(1, wPart1), (2, wPart2)] : PartsDict),
          ([(1, [(24288, 5)]), (2, [(24289, 4)])] : HistDict)) ∧
    Except.map HistoryResult.response
        (format_rows_st [24288, 24289]
          (keys ([(1, [(24288, 5)]), (2, [(24289, 4)])] : HistDict))
          (([(1, wPart1), (2, wPart2)] : PartsDict),
            ([(1, [(24288, 5)]), (2, [(24289, 4)])] : HistDict))).1
      = format_response none [24288, 24289] [(1, wPart1), (2, wPart2)]
          [(1, [(24288, 5)]), (2, [(24289, 4)])] ∧
    export_data "csv" [24288, 24289]
        (format_rows_st [24288, 24289]
          (keys ([(1, [(24288, 5)]), (2, [(24289, 4)])] : HistDict))
          (([(1, wPart1), (2, wPart2)] : PartsDict),
            ([(1, [(24288, 5)]), (2, [(24289, 4)])] : HistDict))).2.1
        (format_rows_st [24288, 24289]
          (keys ([(1, [(24288, 5)]), (2, [(24289, 4)])] : HistDict))
          (([(1, wPart1), (2, wPart2)] : PartsDict),
            ([(1, [(24288, 5)]), (2, [(24289, 4)])] : HistDict))).2.2
      = export_data "csv" [24288, 24289] [(1, wPart1), (2, wPart2)]
          [(1, [(24288, 5)]), (2, [(24289, 4)])]) :=
  ⟨by decide,
    claim8_no_mutation [24288, 24289] [(1, wPart1), (2, wPart2)]
      [(1, [(24288, 5)]), (2, [(24289, 4)])] "csv" (by decide)⟩

/-- C9 witness: a two-entity aggregate built by the loop. -/
theorem claim9_descriptor_total_witness :
    aggregate Period.month [wBuild1, wBuild3] =
      .ok ([(1, wPart1), (2, wPart2)], [(1, [(24288, 5)]), (2, [(24288, 2)])]) ∧
    ((∀ pid, (dget? pid ([(1, [(24288, 5)]), (2, [(24288, 2)])] : HistDict)).isSome →
        (dget? pid ([(1, wPart1), (2, wPart2)] : PartsDict)).isSome) ∧
      ∀ ef dr, ∃ r, format_response ef dr [(1, wPart1), (2, wPart2)]
          [(1, [(24288, 5)]), (2, [(24288, 2)])] = .ok r) :=
  ⟨rfl,
    claim9_descriptor_total Period.month [wBuild1, wBuild3]
      ([(1, wPart1), (2, wPart2)], [(1, [(24288, 5)]), (2, [(24288, 2)])]) rfl⟩

/-- C10 witness: a valid-range sales request with an export format. -/
theorem claim10_stub_generators_witness :
    dateLe ⟨2024, 1, 1⟩ ⟨2024, 12, 31⟩ = true ∧
    ("sales" ∈ (["purchase", "sales", "return"] : List String)) ∧
    get ⟨⟨2024, 1, 1⟩, ⟨2024, 12, 31⟩, Period.year, "sales", some "xlsx"⟩
        [wBuild1, wBuild2] = .ok .plainList :=
  ⟨rfl, by decide,
    claim10_stub_generators
      ⟨⟨2024, 1, 1⟩, ⟨2024, 12, 31⟩, Period.year, "sales", some "xlsx"⟩
      [wBuild1, wBuild2] rfl (by decide)⟩

end OrderHistory
